import Mathlib

/-!
# Verification of the macromania-fs declaration core

A shallow embedding of the `Dir`, `File`, `ConfigFs` macros and the accessor
functions of `src/mod.tsx`, together with the parts of the external
collaborators (the macromania evaluation engine and the simple-fs backend)
that the core relies on, modelled from the contracts the specification gives
for them.

The embedding represents the backend as a tree of directories and data files
plus a current-directory cursor, and the evaluation of a declaration tree as
a function from evaluation states to an optional result string (with `none`
standing for a halted evaluation) and a successor state.  The state also
records a count of reported diagnostics and a trace of every call made to
the backend, so that claims about "no backend call occurs" are directly
expressible.
-/

namespace MacromaniaFs

/-- The conflict-resolution mode of the simple-fs abstraction:
`timid` halts on a pre-existing target, `placid` silently skips,
`assertive` overwrites. -/
inductive Mode
  | timid
  | placid
  | assertive
deriving DecidableEq, Repr

/-- A node of the backend file-system tree: either a data file with string
content, or a directory with a list of named entries. -/
inductive FsNode
  | data (content : String)
  | dir (entries : List (String × FsNode))

/-- The three-way existence state of a target path. -/
inductive ExistState
  | nothing
  | directory
  | dataFile
deriving DecidableEq, Repr

/-- Look up an entry by name in a directory's entry list. -/
def lookupEntry : List (String × FsNode) → String → Option FsNode
  | [], _ => none
  | (k0, v0) :: rest, k => if k0 = k then some v0 else lookupEntry rest k

/-- Replace the entry named `k` (or append it when absent). -/
def setEntry : List (String × FsNode) → String → FsNode → List (String × FsNode)
  | [], k, v => [(k, v)]
  | (k0, v0) :: rest, k, v =>
    if k0 = k then (k, v) :: rest else (k0, v0) :: setEntry rest k v

/-- The backend's `stat`: what exists at a path (relative to a node). -/
def statFs : FsNode → List String → ExistState
  | .data _, [] => .dataFile
  | .dir _, [] => .directory
  | .data _, _ :: _ => .nothing
  | .dir es, k :: rest =>
    match lookupEntry es k with
    | none => .nothing
    | some child => statFs child rest

/-- Place `new` at `path` inside a node.  Fails (returns `none`) when some
intermediate path component is missing or is a data file, mirroring the
backend contract that creating below a missing parent is a backend error. -/
def fsSet : FsNode → List String → FsNode → Option FsNode
  | _, [], new => some new
  | .data _, _ :: _, _ => none
  | .dir es, [k], new => some (.dir (setEntry es k new))
  | .dir es, k :: rest, new =>
    match lookupEntry es k with
    | none => none
    | some child => (fsSet child rest new).map fun c => .dir (setEntry es k c)

/-- The state of a configured backend: its tree and its current directory. -/
structure FsState where
  root : FsNode
  cwd : List String

/-- A recorded call to the backend, with the arguments the core passed. -/
inductive FsOp
  | mkdirCall (path : List String) (mode : Option Mode)
  | writeCall (path : List String) (content : String) (mode : Option Mode)
  | cdCall (ascend : Nat) (descend : List String)

/-- The full evaluation state: the optional configured backend (`none` when
no `ConfigFs` is in scope), the number of diagnostics reported so far, the
scoped current-file-name state of `FileNameStateScope`, and the trace of
backend calls. -/
structure EvalState where
  fs : Option FsState
  errors : Nat
  curFile : Option String
  trace : List FsOp

/-- The mode actually applied by the backend: `timid` when none was given. -/
def resolveMode (m : Option Mode) : Mode := m.getD .timid

/-- Ascend `n` levels from a current directory (stopping at the root). -/
def ascendN : Nat → List String → List String
  | 0, l => l
  | n + 1, l => ascendN n l.dropLast

/-- The backend's mode-gated placement of a node at the relative path
`[name]`, resolved against the current directory.  Absent target: create
(failing when the parent chain is broken).  Existing target of any kind:
timid fails, placid is a silent no-op, assertive replaces the target. -/
def fsPlace (f : FsState) (name : String) (node : FsNode) (m : Option Mode) :
    Option FsState :=
  match statFs f.root (f.cwd ++ [name]) with
  | .nothing => (fsSet f.root (f.cwd ++ [name]) node).map fun r => { f with root := r }
  | _ =>
    match resolveMode m with
    | .timid => none
    | .placid => some f
    | .assertive => (fsSet f.root (f.cwd ++ [name]) node).map fun r => { f with root := r }

/-- The backend's `mkdir`: place a fresh empty directory. -/
def fsMkdir (f : FsState) (name : String) (m : Option Mode) : Option FsState :=
  fsPlace f name (.dir []) m

/-- The backend's `writeString`: place a data file with the given content. -/
def fsWrite (f : FsState) (name : String) (content : String) (m : Option Mode) :
    Option FsState :=
  fsPlace f name (.data content) m

/-- The backend's `cd` with a relative path that first ascends `up` levels
and then descends along `down`. -/
def fsCd (f : FsState) (up : Nat) (down : List String) : FsState :=
  { f with cwd := ascendN up f.cwd ++ down }

/-- The package's `mkdir` wrapper: fetch the configured backend (reporting a
diagnostic and halting when there is none), call its `mkdir`, and report a
diagnostic and halt when the backend raises an error.  The boolean is `true`
exactly when the call succeeded. -/
def mkdir (st : EvalState) (name : String) (m : Option Mode) : Bool × EvalState :=
  match st.fs with
  | none => (false, { st with errors := st.errors + 1 })
  | some f =>
    let st1 := { st with trace := st.trace ++ [FsOp.mkdirCall [name] m] }
    match fsMkdir f name m with
    | none => (false, { st1 with errors := st1.errors + 1 })
    | some f2 => (true, { st1 with fs := some f2 })

/-- The package's `writeString` wrapper, analogous to `mkdir`. -/
def writeString (st : EvalState) (name : String) (content : String)
    (m : Option Mode) : Bool × EvalState :=
  match st.fs with
  | none => (false, { st with errors := st.errors + 1 })
  | some f =>
    let st1 := { st with trace := st.trace ++ [FsOp.writeCall [name] content m] }
    match fsWrite f name content m with
    | none => (false, { st1 with errors := st1.errors + 1 })
    | some f2 => (true, { st1 with fs := some f2 })

/-- The package's `cd` wrapper: halts with a diagnostic when unconfigured,
otherwise records the call and moves the cursor. -/
def cd (st : EvalState) (up : Nat) (down : List String) : Bool × EvalState :=
  match st.fs with
  | none => (false, { st with errors := st.errors + 1 })
  | some f =>
    (true, { st with
      fs := some (fsCd f up down),
      trace := st.trace ++ [FsOp.cdCall up down] })

/-- The package's `doGetFs`: the configured backend, or a diagnostic and a
halt when no `ConfigFs` is in scope. -/
def doGetFs (st : EvalState) : Option FsState × EvalState :=
  match st.fs with
  | none => (none, { st with errors := st.errors + 1 })
  | some f => (some f, st)

/-- The package's `pwd` accessor: the backend's current directory, halting
with a diagnostic when unconfigured. -/
def pwd (st : EvalState) : Option (List String) × EvalState :=
  match st.fs with
  | none => (none, { st with errors := st.errors + 1 })
  | some f => (some f.cwd, st)

/-- The package's `currentFile` accessor: it merely reads the scoped
current-file-name state and never touches the backend, never reports a
diagnostic, and never halts. -/
def currentFile (st : EvalState) : Option String := st.curFile

/-- `Path.isComponent` of the simple-fs abstraction, per its contract: a
name is a valid single path component iff it is non-empty, contains no
path separator, and is neither "." nor "..". -/
def isComponent (s : String) : Bool :=
  !(s == "") && !(s.data.contains '/') && !(s == ".") && !(s == "..")

/-- The declaration language the claims range over.  `text` and `seq` are
the engine's plain fragments and concatenation; `dir` and `file` are the
`Dir` and `File` macros of `src/mod.tsx`; `chdir` is a user macro calling
the package's exported `cd` function; `queryFile` is a user macro rendering
what the `currentFile` accessor returns (with a `<none>` marker for `null`);
`configFs` is the `ConfigFs` macro binding a fresh backend for its
children. -/
inductive Expr
  | text (s : String)
  | seq (a b : Expr)
  | dir (name : String) (mode : Option Mode) (children : Expr)
  | file (name : String) (mode : Option Mode) (forwardContent : Bool) (children : Expr)
  | chdir (up : Nat) (down : List String)
  | queryFile
  | configFs (root : FsNode) (children : Expr)

/-- Evaluation of a declaration tree, following `src/mod.tsx`:

* `dir`: validate the name (halting with a diagnostic and no backend call
  when invalid), call `mkdir` (which halts on an unconfigured scope or a
  backend/conflict error), then evaluate the children inside a lifecycle
  whose pre hook descends into the directory by the one declared component
  and whose post hook ascends exactly one level — the post hook runs whether
  the children completed or halted.  The result passes the children's result
  through.
* `file`: validate the name, then evaluate the children inside the
  `FileNameStateScope` (whose value is set to the initializer `null` — the
  source never calls the setter), restore the scope, and only then call
  `writeString` with the produced content.  The result is the empty string,
  or the content when `forwardContent` is set.
* `chdir` and `queryFile` call the corresponding package functions.
* `configFs` evaluates its children with a fresh configured backend and
  restores the previous configuration afterwards. -/
def evalExpr : Expr → EvalState → Option String × EvalState
  | .text s, st => (some s, st)
  | .seq a b, st =>
    match evalExpr a st with
    | (none, st1) => (none, st1)
    | (some ra, st1) =>
      match evalExpr b st1 with
      | (none, st2) => (none, st2)
      | (some rb, st2) => (some (ra ++ rb), st2)
  | .dir name m children, st =>
    if isComponent name then
      match mkdir st name m with
      | (false, st1) => (none, st1)
      | (true, st1) =>
        let st2 := (cd st1 0 [name]).2
        let res := evalExpr children st2
        (res.1, (cd res.2 1 []).2)
    else (none, { st with errors := st.errors + 1 })
  | .file name m fwd children, st =>
    if isComponent name then
      let saved := st.curFile
      let inner := evalExpr children { st with curFile := none }
      let st1 := { inner.2 with curFile := saved }
      match inner.1 with
      | none => (none, st1)
      | some content =>
        match writeString st1 name content m with
        | (false, st2) => (none, st2)
        | (true, st2) => (some (if fwd then content else ""), st2)
    else (none, { st with errors := st.errors + 1 })
  | .chdir up down, st =>
    match cd st up down with
    | (false, st1) => (none, st1)
    | (true, st1) => (some "", st1)
  | .queryFile, st =>
    (some (match st.curFile with | none => "<none>" | some n => n), st)
  | .configFs root children, st =>
    let saved := st.fs
    let inner := evalExpr children { st with fs := some { root := root, cwd := [] } }
    (inner.1, { inner.2 with fs := saved })

/-- The current directory visible through the state, when configured. -/
def cwdOf (st : EvalState) : Option (List String) := st.fs.map (·.cwd)

/-- Pure content: an expression built from plain text and concatenation only,
performing no backend interaction and no state change. -/
def pureContent : Expr → Bool
  | .text _ => true
  | .seq a b => pureContent a && pureContent b
  | .dir _ _ _ => false
  | .file _ _ _ _ => false
  | .chdir _ _ => false
  | .queryFile => false
  | .configFs _ _ => false

/-- The string a pure-content expression renders to. -/
def render : Expr → String
  | .text s => s
  | .seq a b => render a ++ render b
  | .dir _ _ _ => ""
  | .file _ _ _ _ => ""
  | .chdir _ _ => ""
  | .queryFile => ""
  | .configFs _ _ => ""

/-- Cursor-stable expressions: everything of this package except a raw call
to the exported `cd` function.  (A nested `configFs` is cursor-stable no
matter its children, because it restores the whole configuration.) -/
def cursorStable : Expr → Bool
  | .text _ => true
  | .seq a b => cursorStable a && cursorStable b
  | .dir _ _ c => cursorStable c
  | .file _ _ _ c => cursorStable c
  | .chdir _ _ => false
  | .queryFile => true
  | .configFs _ _ => true

theorem evalExpr_pure {c : Expr} (h : pureContent c = true) (st : EvalState) :
    evalExpr c st = (some (render c), st) := by
  induction c generalizing st with
  | text s => simp [evalExpr, render]
  | seq a b iha ihb =>
    rw [pureContent, Bool.and_eq_true] at h
    simp [evalExpr, render, iha h.1, ihb h.2]
  | dir n m c ih => simp [pureContent] at h
  | file n m fwd c ih => simp [pureContent] at h
  | chdir u d => simp [pureContent] at h
  | queryFile => simp [pureContent] at h
  | configFs r c ih => simp [pureContent] at h

theorem fsPlace_cwd {f f2 : FsState} {n : String} {node : FsNode} {m : Option Mode}
    (h : fsPlace f n node m = some f2) : f2.cwd = f.cwd := by
  unfold fsPlace at h
  rcases hs : statFs f.root (f.cwd ++ [n]) with _ | _ | _ <;> rw [hs] at h
  case nothing =>
    rcases hset : fsSet f.root (f.cwd ++ [n]) node with _ | r <;>
      rw [hset] at h <;> simp at h
    simp [← h]
  all_goals
    cases hm : resolveMode m <;> rw [hm] at h <;> simp at h
    case placid => simp [← h]
    case assertive =>
      rcases hset : fsSet f.root (f.cwd ++ [n]) node with _ | r <;>
        rw [hset] at h <;> simp at h
      simp [← h]

theorem mkdir_errors_le (st : EvalState) (n : String) (m : Option Mode) :
    st.errors ≤ (mkdir st n m).2.errors := by
  obtain ⟨fs, errs, cf, tr⟩ := st
  cases fs with
  | none => simp [mkdir]
  | some f =>
    cases hmk : fsMkdir f n m with
    | none => simp [mkdir, hmk]
    | some f2 => simp [mkdir, hmk]

theorem mkdir_false_errors {st : EvalState} {n : String} {m : Option Mode}
    (h : (mkdir st n m).1 = false) : st.errors < (mkdir st n m).2.errors := by
  obtain ⟨fs, errs, cf, tr⟩ := st
  cases fs with
  | none => simp [mkdir]
  | some f =>
    cases hmk : fsMkdir f n m with
    | none => simp [mkdir, hmk]
    | some f2 => simp [mkdir, hmk] at h

theorem mkdir_cwdOf (st : EvalState) (n : String) (m : Option Mode) :
    cwdOf (mkdir st n m).2 = cwdOf st := by
  obtain ⟨fs, errs, cf, tr⟩ := st
  cases fs with
  | none => simp [mkdir, cwdOf]
  | some f =>
    cases hmk : fsMkdir f n m with
    | none => simp [mkdir, hmk, cwdOf]
    | some f2 =>
      have hcwd : f2.cwd = f.cwd := fsPlace_cwd hmk
      simp [mkdir, hmk, cwdOf, hcwd]

theorem mkdir_true_state {st : EvalState} {n : String} {m : Option Mode}
    (h : (mkdir st n m).1 = true) :
    (mkdir st n m).2.errors = st.errors ∧ ∃ f2, (mkdir st n m).2.fs = some f2 := by
  obtain ⟨fs, errs, cf, tr⟩ := st
  cases fs with
  | none => simp [mkdir] at h
  | some f =>
    cases hmk : fsMkdir f n m with
    | none => simp [mkdir, hmk] at h
    | some f2 => simp [mkdir, hmk]

theorem mkdir_fs_none {st : EvalState} {n : String} {m : Option Mode}
    (h : st.fs = none) : (mkdir st n m).2.fs = none ∧ (mkdir st n m).1 = false := by
  obtain ⟨fs, errs, cf, tr⟩ := st
  cases fs with
  | none => simp [mkdir]
  | some f => simp at h

theorem writeString_errors_le (st : EvalState) (n c : String) (m : Option Mode) :
    st.errors ≤ (writeString st n c m).2.errors := by
  obtain ⟨fs, errs, cf, tr⟩ := st
  cases fs with
  | none => simp [writeString]
  | some f =>
    cases hw : fsWrite f n c m with
    | none => simp [writeString, hw]
    | some f2 => simp [writeString, hw]

theorem writeString_false_errors {st : EvalState} {n c : String} {m : Option Mode}
    (h : (writeString st n c m).1 = false) :
    st.errors < (writeString st n c m).2.errors := by
  obtain ⟨fs, errs, cf, tr⟩ := st
  cases fs with
  | none => simp [writeString]
  | some f =>
    cases hw : fsWrite f n c m with
    | none => simp [writeString, hw]
    | some f2 => simp [writeString, hw] at h

theorem writeString_cwdOf (st : EvalState) (n c : String) (m : Option Mode) :
    cwdOf (writeString st n c m).2 = cwdOf st := by
  obtain ⟨fs, errs, cf, tr⟩ := st
  cases fs with
  | none => simp [writeString, cwdOf]
  | some f =>
    cases hw : fsWrite f n c m with
    | none => simp [writeString, hw, cwdOf]
    | some f2 =>
      have hcwd : f2.cwd = f.cwd := fsPlace_cwd hw
      simp [writeString, hw, cwdOf, hcwd]

theorem writeString_fs_none {st : EvalState} {n c : String} {m : Option Mode}
    (h : st.fs = none) :
    (writeString st n c m).2.fs = none ∧ (writeString st n c m).1 = false := by
  obtain ⟨fs, errs, cf, tr⟩ := st
  cases fs with
  | none => simp [writeString]
  | some f => simp at h

theorem cd_errors_le (st : EvalState) (up : Nat) (down : List String) :
    st.errors ≤ (cd st up down).2.errors := by
  obtain ⟨fs, errs, cf, tr⟩ := st
  cases fs <;> simp [cd]

theorem cd_of_some {st : EvalState} {f : FsState} (h : st.fs = some f)
    (up : Nat) (down : List String) :
    cd st up down =
      (true, { st with
        fs := some (fsCd f up down),
        trace := st.trace ++ [FsOp.cdCall up down] }) := by
  obtain ⟨fs, errs, cf, tr⟩ := st
  cases fs with
  | none => simp at h
  | some f0 => simp at h; subst h; simp [cd]

theorem cd_fs_none {st : EvalState} (h : st.fs = none)
    (up : Nat) (down : List String) :
    cd st up down = (false, { st with errors := st.errors + 1 }) := by
  obtain ⟨fs, errs, cf, tr⟩ := st
  cases fs with
  | none => simp [cd]
  | some f0 => simp at h

theorem ascendN_one (l : List String) : ascendN 1 l = l.dropLast := by
  simp [ascendN]

theorem evalExpr_seq_halt1 {a b : Expr} {st st1 : EvalState}
    (ha : evalExpr a st = (none, st1)) : evalExpr (.seq a b) st = (none, st1) := by
  simp [evalExpr, ha]

theorem evalExpr_seq_halt2 {a b : Expr} {st st1 st2 : EvalState} {ra : String}
    (ha : evalExpr a st = (some ra, st1)) (hb : evalExpr b st1 = (none, st2)) :
    evalExpr (.seq a b) st = (none, st2) := by
  simp [evalExpr, ha, hb]

theorem evalExpr_seq_ok {a b : Expr} {st st1 st2 : EvalState} {ra rb : String}
    (ha : evalExpr a st = (some ra, st1)) (hb : evalExpr b st1 = (some rb, st2)) :
    evalExpr (.seq a b) st = (some (ra ++ rb), st2) := by
  simp [evalExpr, ha, hb]

theorem evalExpr_dir_invalid {n : String} {m : Option Mode} {c : Expr}
    {st : EvalState} (hn : isComponent n = false) :
    evalExpr (.dir n m c) st = (none, { st with errors := st.errors + 1 }) := by
  simp [evalExpr, hn]

theorem evalExpr_dir_mkfail {n : String} {m : Option Mode} {c : Expr}
    {st st1 : EvalState} (hn : isComponent n = true)
    (hmk : mkdir st n m = (false, st1)) :
    evalExpr (.dir n m c) st = (none, st1) := by
  simp [evalExpr, hn, hmk]

theorem evalExpr_dir_ok {n : String} {m : Option Mode} {c : Expr}
    {st st1 : EvalState} (hn : isComponent n = true)
    (hmk : mkdir st n m = (true, st1)) :
    evalExpr (.dir n m c) st =
      ((evalExpr c ((cd st1 0 [n]).2)).1,
        (cd (evalExpr c ((cd st1 0 [n]).2)).2 1 []).2) := by
  simp [evalExpr, hn, hmk]

theorem evalExpr_file_invalid {n : String} {m : Option Mode} {fwd : Bool}
    {c : Expr} {st : EvalState} (hn : isComponent n = false) :
    evalExpr (.file n m fwd c) st = (none, { st with errors := st.errors + 1 }) := by
  simp [evalExpr, hn]

theorem evalExpr_file_childhalt {n : String} {m : Option Mode} {fwd : Bool}
    {c : Expr} {st stIn : EvalState} (hn : isComponent n = true)
    (hin : evalExpr c { st with curFile := none } = (none, stIn)) :
    evalExpr (.file n m fwd c) st = (none, { stIn with curFile := st.curFile }) := by
  simp [evalExpr, hn, hin]

theorem evalExpr_file_wfail {n content : String} {m : Option Mode} {fwd : Bool}
    {c : Expr} {st stIn st2 : EvalState} (hn : isComponent n = true)
    (hin : evalExpr c { st with curFile := none } = (some content, stIn))
    (hw : writeString { stIn with curFile := st.curFile } n content m = (false, st2)) :
    evalExpr (.file n m fwd c) st = (none, st2) := by
  simp [evalExpr, hn, hin, hw]

theorem evalExpr_file_ok {n content : String} {m : Option Mode} {fwd : Bool}
    {c : Expr} {st stIn st2 : EvalState} (hn : isComponent n = true)
    (hin : evalExpr c { st with curFile := none } = (some content, stIn))
    (hw : writeString { stIn with curFile := st.curFile } n content m = (true, st2)) :
    evalExpr (.file n m fwd c) st = (some (if fwd then content else ""), st2) := by
  simp [evalExpr, hn, hin, hw]

theorem evalExpr_chdir_def {up : Nat} {down : List String} {st : EvalState} :
    evalExpr (.chdir up down) st =
      (if (cd st up down).1 then some "" else none, (cd st up down).2) := by
  rw [evalExpr]
  rcases hcd : cd st up down with ⟨b, st1⟩
  cases b <;> simp

theorem evalExpr_configFs_def {r : FsNode} {c : Expr} {st : EvalState} :
    evalExpr (.configFs r c) st =
      ((evalExpr c { st with fs := some { root := r, cwd := [] } }).1,
        { (evalExpr c { st with fs := some { root := r, cwd := [] } }).2 with
            fs := st.fs }) := by
  rw [evalExpr]

/-- Every evaluation can only add diagnostics, never remove them. -/
theorem evalExpr_errors_le (c : Expr) (st : EvalState) :
    st.errors ≤ (evalExpr c st).2.errors := by
  induction c generalizing st with
  | text s => simp [evalExpr]
  | seq a b iha ihb =>
    rcases ha : evalExpr a st with ⟨ra, st1⟩
    have h1 := iha st; rw [ha] at h1; simp at h1
    cases ra with
    | none => rw [evalExpr_seq_halt1 ha]; simpa using h1
    | some ra =>
      rcases hb : evalExpr b st1 with ⟨rb, st2⟩
      have h2 := ihb st1; rw [hb] at h2; simp at h2
      cases rb with
      | none => rw [evalExpr_seq_halt2 ha hb]; simp; omega
      | some rb => rw [evalExpr_seq_ok ha hb]; simp; omega
  | dir n m c ih =>
    by_cases hn : isComponent n = true
    · rcases hmk : mkdir st n m with ⟨b, st1⟩
      have h1 := mkdir_errors_le st n m; rw [hmk] at h1; simp at h1
      cases b with
      | false => rw [evalExpr_dir_mkfail hn hmk]; simpa using h1
      | true =>
        rw [evalExpr_dir_ok hn hmk]
        have h2 := cd_errors_le st1 0 [n]
        have h3 := ih ((cd st1 0 [n]).2)
        have h4 := cd_errors_le (evalExpr c ((cd st1 0 [n]).2)).2 1 []
        simp only []
        omega
    · rw [evalExpr_dir_invalid (Bool.of_not_eq_true hn)]; simp
  | file n m fwd c ih =>
    by_cases hn : isComponent n = true
    · rcases hin : evalExpr c { st with curFile := none } with ⟨r, stIn⟩
      have h1 := ih { st with curFile := none }
      rw [hin] at h1; simp at h1
      cases r with
      | none => rw [evalExpr_file_childhalt hn hin]; simpa using h1
      | some content =>
        rcases hw : writeString { stIn with curFile := st.curFile } n content m
          with ⟨b, st2⟩
        have h2 := writeString_errors_le { stIn with curFile := st.curFile } n content m
        rw [hw] at h2; simp at h2
        cases b with
        | false => rw [evalExpr_file_wfail hn hin hw]; simp; omega
        | true => rw [evalExpr_file_ok hn hin hw]; simp; omega
    · rw [evalExpr_file_invalid (Bool.of_not_eq_true hn)]; simp
  | chdir up down =>
    rw [evalExpr_chdir_def]
    have h1 := cd_errors_le st up down
    simpa using h1
  | queryFile => simp [evalExpr]
  | configFs r c ih =>
    rw [evalExpr_configFs_def]
    have h1 := ih { st with fs := some { root := r, cwd := [] } }
    simpa using h1

/-- Before halting, an evaluation always reports at least one diagnostic. -/
theorem evalExpr_halt_errors {c : Expr} {st : EvalState}
    (h : (evalExpr c st).1 = none) : st.errors < (evalExpr c st).2.errors := by
  induction c generalizing st with
  | text s => simp [evalExpr] at h
  | seq a b iha ihb =>
    rcases ha : evalExpr a st with ⟨ra, st1⟩
    cases ra with
    | none =>
      have h1 := @iha st; rw [ha] at h1; simp at h1
      rw [evalExpr_seq_halt1 ha]; simpa using h1
    | some ra =>
      have h0 := evalExpr_errors_le a st; rw [ha] at h0; simp at h0
      rcases hb : evalExpr b st1 with ⟨rb, st2⟩
      cases rb with
      | none =>
        have h2 := @ihb st1; rw [hb] at h2; simp at h2
        rw [evalExpr_seq_halt2 ha hb]; simp; omega
      | some rb => rw [evalExpr_seq_ok ha hb] at h; simp at h
  | dir n m c ih =>
    by_cases hn : isComponent n = true
    · rcases hmk : mkdir st n m with ⟨b, st1⟩
      cases b with
      | false =>
        have h1 := @mkdir_false_errors st n m
        rw [hmk] at h1
        rw [evalExpr_dir_mkfail hn hmk]
        simpa using h1 rfl
      | true =>
        have h1 := mkdir_errors_le st n m; rw [hmk] at h1; simp at h1
        have h2 := cd_errors_le st1 0 [n]
        rw [evalExpr_dir_ok hn hmk] at h ⊢
        rcases hres : evalExpr c ((cd st1 0 [n]).2) with ⟨r, st3⟩
        have h4 := cd_errors_le st3 1 []
        cases r with
        | none =>
          have h3 := @ih ((cd st1 0 [n]).2); rw [hres] at h3; simp at h3
          simp; omega
        | some r0 => rw [hres] at h; simp at h
    · rw [evalExpr_dir_invalid (Bool.of_not_eq_true hn)]; simp
  | file n m fwd c ih =>
    by_cases hn : isComponent n = true
    · rcases hin : evalExpr c { st with curFile := none } with ⟨r, stIn⟩
      cases r with
      | none =>
        have h1 := @ih ({ st with curFile := none }); rw [hin] at h1
        simp at h1
        rw [evalExpr_file_childhalt hn hin]; simpa using h1
      | some content =>
        have h0 := evalExpr_errors_le c { st with curFile := none }
        rw [hin] at h0; simp at h0
        rcases hw : writeString { stIn with curFile := st.curFile } n content m
          with ⟨b, st2⟩
        cases b with
        | false =>
          have h2 := @writeString_false_errors
            ({ stIn with curFile := st.curFile }) n content m
          rw [hw] at h2
          have h2' := h2 rfl
          rw [evalExpr_file_wfail hn hin hw]
          simp at h2' ⊢
          omega
        | true => rw [evalExpr_file_ok hn hin hw] at h; simp at h
    · rw [evalExpr_file_invalid (Bool.of_not_eq_true hn)]; simp
  | chdir up down =>
    rw [evalExpr_chdir_def] at h ⊢
    rcases hb : (cd st up down).1 with _ | _
    · obtain ⟨fs, errs, cf, tr⟩ := st
      cases fs with
      | none => rw [cd_fs_none rfl] at hb ⊢; simp
      | some f => rw [cd_of_some rfl] at hb; simp at hb
    · rw [hb] at h; simp at h
  | queryFile => simp [evalExpr] at h
  | configFs r c ih =>
    rw [evalExpr_configFs_def] at h ⊢
    simp only [] at h
    have h1 := @ih ({ st with fs := some { root := r, cwd := [] } })
      (by simpa using h)
    simpa using h1

/-- With no configuration in scope, evaluation never acquires a backend. -/
theorem evalExpr_fs_none {c : Expr} {st : EvalState} (h : st.fs = none) :
    (evalExpr c st).2.fs = none := by
  induction c generalizing st with
  | text s => simpa [evalExpr] using h
  | seq a b iha ihb =>
    rcases ha : evalExpr a st with ⟨ra, st1⟩
    have h1 := iha h; rw [ha] at h1; simp at h1
    cases ra with
    | none => rw [evalExpr_seq_halt1 ha]; simpa using h1
    | some ra =>
      rcases hb : evalExpr b st1 with ⟨rb, st2⟩
      have h2 := ihb h1; rw [hb] at h2; simp at h2
      cases rb with
      | none => rw [evalExpr_seq_halt2 ha hb]; simpa using h2
      | some rb => rw [evalExpr_seq_ok ha hb]; simpa using h2
  | dir n m c ih =>
    by_cases hn : isComponent n = true
    · have hm := mkdir_fs_none (n := n) (m := m) h
      rcases hmk : mkdir st n m with ⟨b, st1⟩
      rw [hmk] at hm
      cases b with
      | false => rw [evalExpr_dir_mkfail hn hmk]; simpa using hm.1
      | true => simp at hm
    · rw [evalExpr_dir_invalid (Bool.of_not_eq_true hn)]; simpa using h
  | file n m fwd c ih =>
    by_cases hn : isComponent n = true
    · rcases hin : evalExpr c { st with curFile := none } with ⟨r, stIn⟩
      have h1 : stIn.fs = none := by
        have := @ih ({ st with curFile := none }) (by simpa using h)
        rw [hin] at this; simpa using this
      cases r with
      | none => rw [evalExpr_file_childhalt hn hin]; simpa using h1
      | some content =>
        have hw := @writeString_fs_none
          ({ stIn with curFile := st.curFile }) n content m (by simpa using h1)
        rcases hw2 : writeString { stIn with curFile := st.curFile } n content m
          with ⟨b, st2⟩
        rw [hw2] at hw
        cases b with
        | false => rw [evalExpr_file_wfail hn hin hw2]; simpa using hw.1
        | true => simp at hw
    · rw [evalExpr_file_invalid (Bool.of_not_eq_true hn)]; simpa using h
  | chdir up down =>
    rw [evalExpr_chdir_def, cd_fs_none h]
    simpa using h
  | queryFile => simpa [evalExpr] using h
  | configFs r c ih =>
    rw [evalExpr_configFs_def]
    simpa using h

theorem cwdOf_some_iff {st : EvalState} {l : List String} :
    cwdOf st = some l ↔ ∃ f, st.fs = some f ∧ f.cwd = l := by
  obtain ⟨fs, errs, cf, tr⟩ := st
  cases fs <;> simp [cwdOf]

/-- A cursor-stable expression leaves the observable current directory
exactly where it found it, whether it completes or halts. -/
theorem evalExpr_cwd_stable {c : Expr} (hc : cursorStable c = true)
    (st : EvalState) : cwdOf (evalExpr c st).2 = cwdOf st := by
  induction c generalizing st with
  | text s => simp [evalExpr]
  | seq a b iha ihb =>
    rw [cursorStable, Bool.and_eq_true] at hc
    rcases ha : evalExpr a st with ⟨ra, st1⟩
    have h1 := iha hc.1 st; rw [ha] at h1; simp at h1
    cases ra with
    | none => rw [evalExpr_seq_halt1 ha]; simpa using h1
    | some ra =>
      rcases hb : evalExpr b st1 with ⟨rb, st2⟩
      have h2 := ihb hc.2 st1; rw [hb] at h2; simp at h2
      cases rb with
      | none => rw [evalExpr_seq_halt2 ha hb]; simp [h2, h1]
      | some rb => rw [evalExpr_seq_ok ha hb]; simp [h2, h1]
  | dir n m c ih =>
    rw [cursorStable] at hc
    by_cases hn : isComponent n = true
    · rcases hmk : mkdir st n m with ⟨b, st1⟩
      have hcwd := mkdir_cwdOf st n m; rw [hmk] at hcwd; simp at hcwd
      cases b with
      | false => rw [evalExpr_dir_mkfail hn hmk]; simpa using hcwd
      | true =>
        have hfs := @mkdir_true_state st n m
          (by rw [hmk])
        rw [hmk] at hfs; simp at hfs
        obtain ⟨f2, hf2⟩ := hfs.2
        rw [evalExpr_dir_ok hn hmk]
        rw [cd_of_some hf2 0 [n]]
        simp only []
        set stEnter : EvalState :=
          { st1 with
            fs := some (fsCd f2 0 [n]),
            trace := st1.trace ++ [FsOp.cdCall 0 [n]] } with hdef
        have hEnter : cwdOf stEnter = some (f2.cwd ++ [n]) := by
          simp [hdef, cwdOf, fsCd, ascendN]
        have hmid := ih hc stEnter
        rw [hEnter] at hmid
        obtain ⟨g, hg, hgcwd⟩ := cwdOf_some_iff.mp hmid
        rw [cd_of_some hg 1 []]
        have : cwdOf st = some f2.cwd := by
          rw [← hcwd, cwdOf_some_iff]
          exact ⟨f2, hf2, rfl⟩
        rw [this]
        simp [cwdOf, fsCd, ascendN_one, hgcwd]
    · rw [evalExpr_dir_invalid (Bool.of_not_eq_true hn)]; simp [cwdOf]
  | file n m fwd c ih =>
    rw [cursorStable] at hc
    by_cases hn : isComponent n = true
    · rcases hin : evalExpr c { st with curFile := none } with ⟨r, stIn⟩
      have h1 := ih hc { st with curFile := none }
      rw [hin] at h1; simp at h1
      have h1' : cwdOf stIn = cwdOf st := by
        rw [h1]; simp [cwdOf]
      cases r with
      | none =>
        rw [evalExpr_file_childhalt hn hin]
        simpa [cwdOf] using h1'
      | some content =>
        rcases hw : writeString { stIn with curFile := st.curFile } n content m
          with ⟨b, st2⟩
        have h2 := writeString_cwdOf { stIn with curFile := st.curFile } n content m
        rw [hw] at h2; simp at h2
        have h2' : cwdOf st2 = cwdOf st := by
          rw [h2]; simpa [cwdOf] using h1'
        cases b with
        | false => rw [evalExpr_file_wfail hn hin hw]; simpa using h2'
        | true => rw [evalExpr_file_ok hn hin hw]; simpa using h2'
    · rw [evalExpr_file_invalid (Bool.of_not_eq_true hn)]; simp [cwdOf]
  | chdir up down => simp [cursorStable] at hc
  | queryFile => simp [evalExpr]
  | configFs r c ih =>
    rw [evalExpr_configFs_def]
    simp [cwdOf]

theorem mkdir_conflict {st : EvalState} {f : FsState} {n : String}
    {m : Option Mode} (hfs : st.fs = some f) (h0 : fsMkdir f n m = none) :
    mkdir st n m =
      (false, { st with
        trace := st.trace ++ [FsOp.mkdirCall [n] m],
        errors := st.errors + 1 }) := by
  obtain ⟨fs, errs, cf, tr⟩ := st
  simp at hfs
  subst hfs
  simp [mkdir, h0]

theorem mkdir_noop {st : EvalState} {f : FsState} {n : String}
    {m : Option Mode} (hfs : st.fs = some f) (h0 : fsMkdir f n m = some f) :
    mkdir st n m =
      (true, { st with trace := st.trace ++ [FsOp.mkdirCall [n] m] }) := by
  obtain ⟨fs, errs, cf, tr⟩ := st
  simp at hfs
  subst hfs
  simp [mkdir, h0]

theorem writeString_conflict {st : EvalState} {f : FsState} {n c : String}
    {m : Option Mode} (hfs : st.fs = some f) (h0 : fsWrite f n c m = none) :
    writeString st n c m =
      (false, { st with
        trace := st.trace ++ [FsOp.writeCall [n] c m],
        errors := st.errors + 1 }) := by
  obtain ⟨fs, errs, cf, tr⟩ := st
  simp at hfs
  subst hfs
  simp [writeString, h0]

theorem writeString_noop {st : EvalState} {f : FsState} {n c : String}
    {m : Option Mode} (hfs : st.fs = some f) (h0 : fsWrite f n c m = some f) :
    writeString st n c m =
      (true, { st with trace := st.trace ++ [FsOp.writeCall [n] c m] }) := by
  obtain ⟨fs, errs, cf, tr⟩ := st
  simp at hfs
  subst hfs
  simp [writeString, h0]

theorem curFile_roundtrip (st : EvalState) :
    { { st with curFile := none } with curFile := st.curFile } = st := rfl

theorem fsPlace_conflict_timid {f : FsState} {n : String} {m : Option Mode}
    (hm : m = none ∨ m = some Mode.timid)
    (hex : statFs f.root (f.cwd ++ [n]) ≠ ExistState.nothing) (node : FsNode) :
    fsPlace f n node m = none := by
  unfold fsPlace
  rcases hs : statFs f.root (f.cwd ++ [n]) with _ | _ | _
  · exact absurd hs hex
  all_goals rcases hm with hm | hm <;> subst hm <;> simp [resolveMode]

theorem fsPlace_skip_placid {f : FsState} {n : String}
    (hex : statFs f.root (f.cwd ++ [n]) ≠ ExistState.nothing) (node : FsNode) :
    fsPlace f n node (some Mode.placid) = some f := by
  unfold fsPlace
  rcases hs : statFs f.root (f.cwd ++ [n]) with _ | _ | _
  · exact absurd hs hex
  all_goals simp [resolveMode]

/-- The state in which a `dir` declaration evaluates its children after a
successful no-op or effectful `mkdir` that left the backend tree at `root`:
the cursor has descended by exactly the declared component, and the trace
records the `mkdir` call followed by the descending `cd` call. -/
def enterDir (st : EvalState) (f : FsState) (n : String) (m : Option Mode) :
    EvalState :=
  { st with
    fs := some { root := f.root, cwd := f.cwd ++ [n] },
    trace := (st.trace ++ [FsOp.mkdirCall [n] m]) ++ [FsOp.cdCall 0 [n]] }

/-- Claim C4 (confirmed): a `Dir` or `File` declaration whose name is not a
valid path component (empty, containing a separator, or "." or "..") halts
with a recorded diagnostic, and performs no backend operation at all: the
backend binding, the tree, the cursor and the call trace are all untouched,
and the children are never evaluated. -/
theorem c4_invalid_name_no_backend_touch (st : EvalState) (n : String)
    (m : Option Mode) (c : Expr) (fwd : Bool) (hn : isComponent n = false) :
    evalExpr (.dir n m c) st = (none, { st with errors := st.errors + 1 }) ∧
    evalExpr (.file n m fwd c) st = (none, { st with errors := st.errors + 1 }) ∧
    (evalExpr (.dir n m c) st).2.trace = st.trace ∧
    (evalExpr (.file n m fwd c) st).2.trace = st.trace ∧
    (evalExpr (.dir n m c) st).2.fs = st.fs ∧
    (evalExpr (.file n m fwd c) st).2.fs = st.fs := by
  rw [evalExpr_dir_invalid hn, evalExpr_file_invalid hn]
  simp

/-- Witness for C4 at the concrete invalid names "a/b" and "". -/
theorem c4_invalid_name_no_backend_touch_witness :
    isComponent "a/b" = false ∧
    evalExpr (.dir "a/b" none (.text "x")) ⟨some ⟨.dir [], []⟩, 0, none, []⟩ =
      (none, ⟨some ⟨.dir [], []⟩, 1, none, []⟩) ∧
    isComponent "" = false ∧
    evalExpr (.file "" none false (.text "x")) ⟨some ⟨.dir [], []⟩, 0, none, []⟩ =
      (none, ⟨some ⟨.dir [], []⟩, 1, none, []⟩) :=
  ⟨rfl,
    (c4_invalid_name_no_backend_touch ⟨some ⟨.dir [], []⟩, 0, none, []⟩
      "a/b" none (.text "x") false rfl).1,
    rfl,
    (c4_invalid_name_no_backend_touch ⟨some ⟨.dir [], []⟩, 0, none, []⟩
      "" none (.text "x") false rfl).2.1⟩

/-- Claim C5 (confirmed): a `File` declaration evaluates its children to
completion before any existence check or write, so when content production
halts, the declaration halts and the backend is exactly as the children
left it: no write call is added to the trace and the backend state is the
children's final one. -/
theorem c5_file_children_before_write {st stIn : EvalState} {n : String}
    {m : Option Mode} {fwd : Bool} {c : Expr}
    (hn : isComponent n = true)
    (hin : evalExpr c { st with curFile := none } = (none, stIn)) :
    (evalExpr (.file n m fwd c) st).1 = none ∧
    (evalExpr (.file n m fwd c) st).2.fs = stIn.fs ∧
    (evalExpr (.file n m fwd c) st).2.trace = stIn.trace := by
  rw [evalExpr_file_childhalt hn hin]
  simp

/-- Witness for C5: a `File` whose children halt (on an invalid nested
directory name) leaves the backend untouched. -/
theorem c5_file_children_before_write_witness :
    isComponent "f" = true ∧
    evalExpr (.dir "x/y" none (.text ""))
        { (⟨some ⟨.dir [], []⟩, 0, none, []⟩ : EvalState) with curFile := none } =
      (none, ⟨some ⟨.dir [], []⟩, 1, none, []⟩) ∧
    (evalExpr (.file "f" none false (.dir "x/y" none (.text "")))
        ⟨some ⟨.dir [], []⟩, 0, none, []⟩).1 = none ∧
    (evalExpr (.file "f" none false (.dir "x/y" none (.text "")))
        ⟨some ⟨.dir [], []⟩, 0, none, []⟩).2.trace = [] :=
  ⟨rfl, rfl,
    (@c5_file_children_before_write ⟨some ⟨.dir [], []⟩, 0, none, []⟩
      ⟨some ⟨.dir [], []⟩, 1, none, []⟩ "f" none false
      (.dir "x/y" none (.text "")) rfl rfl).1,
    (@c5_file_children_before_write ⟨some ⟨.dir [], []⟩, 0, none, []⟩
      ⟨some ⟨.dir [], []⟩, 1, none, []⟩ "f" none false
      (.dir "x/y" none (.text "")) rfl rfl).2.2⟩

/-- Claim C6 (confirmed): a `Dir` declaration that does not halt evaluates
to exactly what its children evaluated to, whether the directory creation
proceeded or was skipped. -/
theorem c6_dir_pass_through {st : EvalState} {n : String} {m : Option Mode}
    {c : Expr} {r : String} (h : (evalExpr (.dir n m c) st).1 = some r) :
    (evalExpr c ((cd (mkdir st n m).2 0 [n]).2)).1 = some r := by
  by_cases hn : isComponent n = true
  · rcases hmk : mkdir st n m with ⟨b, st1⟩
    cases b with
    | false => rw [evalExpr_dir_mkfail hn hmk] at h; simp at h
    | true =>
      rw [evalExpr_dir_ok hn hmk] at h
      exact h
  · rw [evalExpr_dir_invalid (Bool.of_not_eq_true hn)] at h; simp at h
/-- Witness for C6: a placid `Dir` over a pre-existing directory (creation
skipped) still evaluates to its children's result. -/
theorem c6_dir_pass_through_witness :
    (evalExpr (.dir "ohhi" (some .placid) (.text "ha"))
        ⟨some ⟨.dir [("ohhi", .dir [])], []⟩, 0, none, []⟩).1 = some "ha" ∧
    (evalExpr (.text "ha")
        ((cd (mkdir ⟨some ⟨.dir [("ohhi", .dir [])], []⟩, 0, none, []⟩
          "ohhi" (some .placid)).2 0 ["ohhi"]).2)).1 = some "ha" :=
  ⟨rfl, c6_dir_pass_through rfl⟩

/-- Claim C7 (confirmed): a `File` declaration that does not halt evaluates
to the empty string, unless `forwardContent` is set, in which case it
evaluates to the content its children produced — whether or not the write
happened. -/
theorem c7_file_result {st : EvalState} {n : String} {m : Option Mode}
    {fwd : Bool} {c : Expr} {r : String}
    (h : (evalExpr (.file n m fwd c) st).1 = some r) :
    (fwd = false → r = "") ∧
    (fwd = true → (evalExpr c { st with curFile := none }).1 = some r) := by
  by_cases hn : isComponent n = true
  · rcases hin : evalExpr c { st with curFile := none } with ⟨rc, stIn⟩
    cases rc with
    | none => rw [evalExpr_file_childhalt hn hin] at h; simp at h
    | some content =>
      rcases hw : writeString { stIn with curFile := st.curFile } n content m
        with ⟨b, st2⟩
      cases b with
      | false => rw [evalExpr_file_wfail hn hin hw] at h; simp at h
      | true =>
        rw [evalExpr_file_ok hn hin hw] at h
        simp only [Prod.fst] at h
        cases fwd with
        | false =>
          simp at h
          exact ⟨fun _ => h.symm, fun hf => by simp at hf⟩
        | true =>
          simp at h
          exact ⟨fun hf => by simp at hf, fun _ => by simp [h]⟩
  · rw [evalExpr_file_invalid (Bool.of_not_eq_true hn)] at h; simp at h

/-- Witness for C7: `forwardContent` on a placid `File` over a pre-existing
data file evaluates to the children's content although no write occurred. -/
theorem c7_file_result_witness :
    (evalExpr (.file "ohhi" (some .placid) true (.text "ha"))
        ⟨some ⟨.dir [("ohhi", .data "zzz")], []⟩, 0, none, []⟩).1 = some "ha" ∧
    (evalExpr (.text "ha")
        { (⟨some ⟨.dir [("ohhi", .data "zzz")], []⟩, 0, none, []⟩ : EvalState) with
            curFile := none }).1 = some "ha" :=
  ⟨rfl,
    (c7_file_result
      (show (evalExpr (.file "ohhi" (some .placid) true (.text "ha"))
        ⟨some ⟨.dir [("ohhi", .data "zzz")], []⟩, 0, none, []⟩).1 = some "ha"
        from rfl)).2 rfl⟩

/-- Claim C2 (confirmed): a `Dir` or `File` declaration under timid mode —
explicitly, or by default when no mode is given — whose target path already
exists in any form halts, records a diagnostic, and leaves the backend
unchanged: for a `Dir` unconditionally (its children never run), for a
`File` with pure textual children (children run first; the declaration's
own write is refused, so the state it received is the state it leaves). -/
theorem c2_timid_existing_halts {st : EvalState} {f : FsState} {n : String}
    {m : Option Mode} {c : Expr} {fwd : Bool}
    (hfs : st.fs = some f) (hn : isComponent n = true)
    (hm : m = none ∨ m = some Mode.timid)
    (hex : statFs f.root (f.cwd ++ [n]) ≠ ExistState.nothing) :
    ((evalExpr (.dir n m c) st).1 = none ∧
      (evalExpr (.dir n m c) st).2.fs = some f ∧
      (evalExpr (.dir n m c) st).2.errors = st.errors + 1) ∧
    (pureContent c = true →
      (evalExpr (.file n m fwd c) st).1 = none ∧
      (evalExpr (.file n m fwd c) st).2.fs = some f ∧
      (evalExpr (.file n m fwd c) st).2.errors = st.errors + 1) := by
  have hmk := mkdir_conflict hfs (fsPlace_conflict_timid hm hex (.dir []))
  constructor
  · rw [evalExpr_dir_mkfail hn hmk]
    simp [hfs]
  · intro hp
    have hin : evalExpr c { st with curFile := none } =
        (some (render c), { st with curFile := none }) := evalExpr_pure hp _
    have hw0 : fsWrite f n (render c) m = none :=
      fsPlace_conflict_timid hm hex (.data (render c))
    have hw := @writeString_conflict
      ({ { st with curFile := none } with curFile := st.curFile }) f n (render c) m
      (by simpa using hfs) hw0
    rw [evalExpr_file_wfail hn hin hw]
    simp [hfs]

/-- Witness for C2: default-mode `Dir` and `File` named "ohhi" over a
backend where "ohhi" already holds data halt with one diagnostic and an
unchanged tree. -/
theorem c2_timid_existing_halts_witness :
    ((evalExpr (.dir "ohhi" none (.text "ha"))
        ⟨some ⟨.dir [("ohhi", .data "zzz")], []⟩, 0, none, []⟩).1 = none ∧
      (evalExpr (.dir "ohhi" none (.text "ha"))
        ⟨some ⟨.dir [("ohhi", .data "zzz")], []⟩, 0, none, []⟩).2.fs =
          some ⟨.dir [("ohhi", .data "zzz")], []⟩ ∧
      (evalExpr (.dir "ohhi" none (.text "ha"))
        ⟨some ⟨.dir [("ohhi", .data "zzz")], []⟩, 0, none, []⟩).2.errors = 0 + 1) ∧
    (pureContent (.text "ha") = true →
      (evalExpr (.file "ohhi" none false (.text "ha"))
        ⟨some ⟨.dir [("ohhi", .data "zzz")], []⟩, 0, none, []⟩).1 = none ∧
      (evalExpr (.file "ohhi" none false (.text "ha"))
        ⟨some ⟨.dir [("ohhi", .data "zzz")], []⟩, 0, none, []⟩).2.fs =
          some ⟨.dir [("ohhi", .data "zzz")], []⟩ ∧
      (evalExpr (.file "ohhi" none false (.text "ha"))
        ⟨some ⟨.dir [("ohhi", .data "zzz")], []⟩, 0, none, []⟩).2.errors = 0 + 1) :=
  c2_timid_existing_halts rfl rfl (Or.inl rfl) (by decide)

/-- Claim C3 (confirmed): a `Dir` or `File` declaration under placid mode
whose target already exists in any form succeeds without error and leaves
the backend untouched by its own creation step; for a `Dir`, the children
are still evaluated with the current directory set to the pre-existing
target (the whole evaluation is exactly the children's evaluation in the
descended state, wrapped by the one-level ascent); for a `File` with pure
children the state is fully unchanged and the result is reported as
success. -/
theorem c3_placid_existing_noop {st : EvalState} {f : FsState} {n : String}
    {c : Expr} {fwd : Bool}
    (hfs : st.fs = some f) (hn : isComponent n = true)
    (hex : statFs f.root (f.cwd ++ [n]) ≠ ExistState.nothing) :
    evalExpr (.dir n (some .placid) c) st =
      ((evalExpr c (enterDir st f n (some .placid))).1,
        (cd (evalExpr c (enterDir st f n (some .placid))).2 1 []).2) ∧
    (pureContent c = true →
      (evalExpr (.file n (some .placid) fwd c) st).1 =
        some (if fwd then render c else "") ∧
      (evalExpr (.file n (some .placid) fwd c) st).2.fs = some f ∧
      (evalExpr (.file n (some .placid) fwd c) st).2.errors = st.errors) := by
  have hmk := mkdir_noop hfs (fsPlace_skip_placid hex (.dir []))
  constructor
  · rw [evalExpr_dir_ok hn hmk]
    have hcd :
        (cd { st with trace := st.trace ++ [FsOp.mkdirCall [n] (some Mode.placid)] }
          0 [n]).2 = enterDir st f n (some Mode.placid) := by
      rw [cd_of_some (by simpa using hfs) 0 [n]]
      simp [enterDir, fsCd, ascendN]
    rw [hcd]
  · intro hp
    have hin : evalExpr c { st with curFile := none } =
        (some (render c), { st with curFile := none }) := evalExpr_pure hp _
    have hw0 : fsWrite f n (render c) (some Mode.placid) = some f :=
      fsPlace_skip_placid hex (.data (render c))
    have hw := @writeString_noop
      ({ { st with curFile := none } with curFile := st.curFile }) f n (render c)
      (some Mode.placid) (by simpa using hfs) hw0
    rw [evalExpr_file_ok hn hin hw]
    simp [hfs]

/-- Witness for C3: placid `Dir` and `File` named "ohhi" over a backend
where "ohhi" already exists succeed, skip the mutation, and the `Dir`
evaluates its children under the pre-existing directory. -/
theorem c3_placid_existing_noop_witness :
    (evalExpr (.dir "ohhi" (some .placid) (.text "ha"))
        ⟨some ⟨.dir [("ohhi", .dir [])], []⟩, 0, none, []⟩ =
      ((evalExpr (.text "ha")
          (enterDir ⟨some ⟨.dir [("ohhi", .dir [])], []⟩, 0, none, []⟩
            ⟨.dir [("ohhi", .dir [])], []⟩ "ohhi" (some .placid))).1,
        (cd (evalExpr (.text "ha")
          (enterDir ⟨some ⟨.dir [("ohhi", .dir [])], []⟩, 0, none, []⟩
            ⟨.dir [("ohhi", .dir [])], []⟩ "ohhi" (some .placid))).2 1 []).2)) ∧
    (pureContent (.text "ha") = true →
      (evalExpr (.file "ohhi" (some .placid) false (.text "ha"))
        ⟨some ⟨.dir [("ohhi", .dir [])], []⟩, 0, none, []⟩).1 =
          some (if false then render (.text "ha") else "") ∧
      (evalExpr (.file "ohhi" (some .placid) false (.text "ha"))
        ⟨some ⟨.dir [("ohhi", .dir [])], []⟩, 0, none, []⟩).2.fs =
          some ⟨.dir [("ohhi", .dir [])], []⟩ ∧
      (evalExpr (.file "ohhi" (some .placid) false (.text "ha"))
        ⟨some ⟨.dir [("ohhi", .dir [])], []⟩, 0, none, []⟩).2.errors = 0) :=
  c3_placid_existing_noop rfl rfl (by decide)

/-- Claim C8 (code bug): the `currentFile` accessor is documented to return
the `name` prop of the enclosing `File` macro while its children are being
evaluated, but the source enters `FileNameStateScope` with its initializer
`null` and never calls the setter (it is bound to `_` and discarded), so
inside a `File` named "a.txt" the accessor still yields `null`: a child
rendering the accessor's value produces the `<none>` marker, never the
name. -/
theorem c8_currentfile_null_inside_file :
    (evalExpr (.file "a.txt" (some .assertive) true .queryFile)
        ⟨some ⟨.dir [], []⟩, 0, none, []⟩).1 = some "<none>" ∧
    currentFile
        { (⟨some ⟨.dir [], []⟩, 0, none, []⟩ : EvalState) with curFile := none } =
      none ∧
    (some "<none>" : Option String) ≠ some "a.txt" := by
  refine ⟨rfl, rfl, by simp⟩

/-- Counterexample to claim C1 as stated: a `Dir` named "a" whose children
call the package's exported `cd` to descend into "b" leaves the observed
current directory at ["a"] — not at the pre-`Dir` directory [] — because
the post hook ascends one level relative to wherever the children left the
cursor rather than restoring a saved value. -/
theorem c1_counterexample :
    cwdOf (evalExpr (.dir "a" none (.chdir 0 ["b"]))
        ⟨some ⟨.dir [], []⟩, 0, none, []⟩).2 = some ["a"] ∧
    cwdOf (⟨some ⟨.dir [], []⟩, 0, none, []⟩ : EvalState) = some [] ∧
    (some ["a"] : Option (List String)) ≠ some [] := by
  refine ⟨rfl, rfl, by simp⟩

/-- Claim C1 (amended): for every `Dir` declaration whose children leave
the cursor where they found it — which all declarations of this package
do, but a child calling the exported `cd` need not — the scope is balanced:
the pre hook descends by exactly the one declared component and, whether
the children completed or halted, the current directory observed after the
`Dir` equals the one observed before it. -/
theorem c1_dir_scope_balanced {n : String} {m : Option Mode} {c : Expr}
    (hc : cursorStable c = true) (st : EvalState) :
    cwdOf (evalExpr (.dir n m c) st).2 = cwdOf st ∧
    ((mkdir st n m).1 = true →
      cwdOf ((cd (mkdir st n m).2 0 [n]).2) =
        (cwdOf st).map (fun l => l ++ [n])) := by
  constructor
  · have hstable : cursorStable (.dir n m c) = true := by
      simpa [cursorStable] using hc
    exact evalExpr_cwd_stable hstable st
  · intro hmk
    obtain ⟨-, f2, hf2⟩ := mkdir_true_state hmk
    have hcwd := mkdir_cwdOf st n m
    rw [cd_of_some hf2 0 [n]]
    have h1 : cwdOf st = some f2.cwd := by
      rw [← hcwd, cwdOf_some_iff]
      exact ⟨f2, hf2, rfl⟩
    rw [h1]
    simp [cwdOf, fsCd, ascendN]

/-- Witness for C1 (amended): a `Dir` whose children halt on an invalid
nested name still restores the pre-`Dir` current directory, and the pre
hook descended by exactly the declared component. -/
theorem c1_dir_scope_balanced_witness :
    cursorStable (.file "b/c" none false (.text "")) = true ∧
    cwdOf (evalExpr (.dir "a" none (.file "b/c" none false (.text "")))
        ⟨some ⟨.dir [], []⟩, 0, none, []⟩).2 =
      cwdOf (⟨some ⟨.dir [], []⟩, 0, none, []⟩ : EvalState) ∧
    (mkdir ⟨some ⟨.dir [], []⟩, 0, none, []⟩ "a" none).1 = true ∧
    cwdOf ((cd (mkdir ⟨some ⟨.dir [], []⟩, 0, none, []⟩ "a" none).2 0 ["a"]).2) =
      (cwdOf (⟨some ⟨.dir [], []⟩, 0, none, []⟩ : EvalState)).map
        (fun l => l ++ ["a"]) :=
  ⟨rfl,
    (@c1_dir_scope_balanced "a" none (.file "b/c" none false (.text "")) rfl
      ⟨some ⟨.dir [], []⟩, 0, none, []⟩).1,
    rfl,
    (@c1_dir_scope_balanced "a" none (.file "b/c" none false (.text "")) rfl
      ⟨some ⟨.dir [], []⟩, 0, none, []⟩).2 rfl⟩

/-- Counterexample to claim C10 as stated: its "if and only if" fails in
the only-if direction.  A `Dir` named "a" whose children `cd` one level up
and down into the sibling "b" leaves the cursor at ["b"], which is not the
target ["a"], yet the directory observed after the `Dir` still equals the
pre-`Dir` one, because only the parent of the left-behind cursor matters. -/
theorem c10_counterexample :
    cwdOf (evalExpr (.dir "a" none (.chdir 1 ["b"]))
        ⟨some ⟨.dir [], []⟩, 0, none, []⟩).2 =
      cwdOf (⟨some ⟨.dir [], []⟩, 0, none, []⟩ : EvalState) ∧
    (cd (mkdir ⟨some ⟨.dir [], []⟩, 0, none, []⟩ "a" none).2 0 ["a"]).2 =
      ⟨some ⟨.dir [("a", .dir [])], ["a"]⟩, 0, none,
        [FsOp.mkdirCall ["a"] none, FsOp.cdCall 0 ["a"]]⟩ ∧
    cwdOf (evalExpr (.chdir 1 ["b"])
        ⟨some ⟨.dir [("a", .dir [])], ["a"]⟩, 0, none,
          [FsOp.mkdirCall ["a"] none, FsOp.cdCall 0 ["a"]]⟩).2 = some ["b"] ∧
    (["b"] : List String) ≠ ["a"] := by
  refine ⟨rfl, rfl, rfl, by simp⟩

/-- Claim C10 (amended): the exit from a `Dir` is an unconditional relative
ascent of exactly one level, not the restoration of a saved snapshot: the
current directory after the `Dir` is the parent of whatever current
directory the children left behind; in particular it equals the pre-`Dir`
current directory whenever the children left the cursor at the `Dir`'s
target directory — though not only then, since any left-behind cursor with
the same parent restores it as well. -/
theorem c10_relative_ascent {st st1 : EvalState} {f f3 : FsState}
    {n : String} {m : Option Mode} {c : Expr}
    (hn : isComponent n = true) (hfs : st.fs = some f)
    (hmk : mkdir st n m = (true, st1))
    (hf3 : (evalExpr c ((cd st1 0 [n]).2)).2.fs = some f3) :
    cwdOf (evalExpr (.dir n m c) st).2 = some f3.cwd.dropLast ∧
    (f3.cwd = f.cwd ++ [n] →
      cwdOf (evalExpr (.dir n m c) st).2 = cwdOf st) := by
  rw [evalExpr_dir_ok hn hmk]
  have hpost : cwdOf ((cd (evalExpr c ((cd st1 0 [n]).2)).2 1 []).2) =
      some f3.cwd.dropLast := by
    rw [cd_of_some hf3 1 []]
    simp [cwdOf, fsCd, ascendN_one]
  refine ⟨hpost, fun h => ?_⟩
  rw [hpost, h]
  simp [cwdOf, hfs]

/-- Witness for C10 (amended): in a run where the children do leave the
cursor at the target directory, the `Dir` restores the pre-`Dir` current
directory. -/
theorem c10_relative_ascent_witness :
    isComponent "a" = true ∧
    mkdir ⟨some ⟨.dir [], []⟩, 0, none, []⟩ "a" none =
      (true, ⟨some ⟨.dir [("a", .dir [])], []⟩, 0, none,
        [FsOp.mkdirCall ["a"] none]⟩) ∧
    (evalExpr (.text "x")
        ((cd (⟨some ⟨.dir [("a", .dir [])], []⟩, 0, none,
          [FsOp.mkdirCall ["a"] none]⟩ : EvalState) 0 ["a"]).2)).2.fs =
      some ⟨.dir [("a", .dir [])], ["a"]⟩ ∧
    (FsState.cwd ⟨.dir [("a", .dir [])], ["a"]⟩ = [] ++ ["a"] →
      cwdOf (evalExpr (.dir "a" none (.text "x"))
        ⟨some ⟨.dir [], []⟩, 0, none, []⟩).2 =
        cwdOf (⟨some ⟨.dir [], []⟩, 0, none, []⟩ : EvalState)) :=
  ⟨rfl, rfl, rfl,
    (@c10_relative_ascent ⟨some ⟨.dir [], []⟩, 0, none, []⟩
      ⟨some ⟨.dir [("a", .dir [])], []⟩, 0, none, [FsOp.mkdirCall ["a"] none]⟩
      ⟨.dir [], []⟩ ⟨.dir [("a", .dir [])], ["a"]⟩ "a" none (.text "x")
      rfl rfl rfl rfl).2⟩

/-- Counterexample to claim C9 as stated: the `currentFile` accessor,
evaluated with no configuration scope, does not halt and records no
diagnostic — it simply returns `null`; a document consisting of a macro
rendering it evaluates to a result (not to the empty outcome) with zero
diagnostics. -/
theorem c9_counterexample :
    evalExpr .queryFile ⟨none, 0, none, []⟩ =
      (some "<none>", ⟨none, 0, none, []⟩) ∧
    currentFile ⟨none, 0, none, []⟩ = none := by
  exact ⟨rfl, rfl⟩

/-- Claim C9 (amended): every `Dir` or `File` declaration, every use of the
exported `cd`, and every backend-consulting accessor (`pwd`, `getFs`),
evaluated with no configuration scope, halts with at least one recorded
diagnostic and no backend ever comes into existence to be mutated; the
`currentFile` accessor is the one exception — it answers `null` without
halting or reporting. -/
theorem c9_unconfigured_halts {st : EvalState} {n : String} {m : Option Mode}
    {c : Expr} {fwd : Bool} {up : Nat} {down : List String}
    (h : st.fs = none) :
    ((evalExpr (.dir n m c) st).1 = none ∧
      st.errors < (evalExpr (.dir n m c) st).2.errors ∧
      (evalExpr (.dir n m c) st).2.fs = none) ∧
    ((evalExpr (.file n m fwd c) st).1 = none ∧
      st.errors < (evalExpr (.file n m fwd c) st).2.errors ∧
      (evalExpr (.file n m fwd c) st).2.fs = none) ∧
    ((evalExpr (.chdir up down) st).1 = none ∧
      st.errors < (evalExpr (.chdir up down) st).2.errors) ∧
    pwd st = (none, { st with errors := st.errors + 1 }) ∧
    doGetFs st = (none, { st with errors := st.errors + 1 }) := by
  have hdir1 : (evalExpr (.dir n m c) st).1 = none := by
    by_cases hn : isComponent n = true
    · have hm2 := mkdir_fs_none (n := n) (m := m) h
      rcases hmk : mkdir st n m with ⟨b, st1⟩
      rw [hmk] at hm2
      cases b with
      | false => rw [evalExpr_dir_mkfail hn hmk]
      | true => simp at hm2
    · rw [evalExpr_dir_invalid (Bool.of_not_eq_true hn)]
  have hfile1 : (evalExpr (.file n m fwd c) st).1 = none := by
    by_cases hn : isComponent n = true
    · rcases hin : evalExpr c { st with curFile := none } with ⟨r, stIn⟩
      cases r with
      | none => rw [evalExpr_file_childhalt hn hin]
      | some content =>
        have hsfs : stIn.fs = none := by
          have := @evalExpr_fs_none c ({ st with curFile := none })
            (by simpa using h)
          rw [hin] at this; simpa using this
        have hw := @writeString_fs_none
          ({ stIn with curFile := st.curFile }) n content m (by simpa using hsfs)
        rcases hw2 : writeString { stIn with curFile := st.curFile } n content m
          with ⟨b, st2⟩
        rw [hw2] at hw
        cases b with
        | false => rw [evalExpr_file_wfail hn hin hw2]
        | true => simp at hw
    · rw [evalExpr_file_invalid (Bool.of_not_eq_true hn)]
  have hchdir1 : (evalExpr (.chdir up down) st).1 = none := by
    rw [evalExpr_chdir_def, cd_fs_none h]
    simp
  refine ⟨⟨hdir1, evalExpr_halt_errors hdir1, evalExpr_fs_none h⟩,
    ⟨hfile1, evalExpr_halt_errors hfile1, evalExpr_fs_none h⟩,
    ⟨hchdir1, evalExpr_halt_errors hchdir1⟩, ?_, ?_⟩
  · obtain ⟨fs, errs, cf, tr⟩ := st
    simp at h
    subst h
    simp [pwd]
  · obtain ⟨fs, errs, cf, tr⟩ := st
    simp at h
    subst h
    simp [doGetFs]

/-- Witness for C9 (amended) at the concrete unconfigured state. -/
theorem c9_unconfigured_halts_witness :
    ((evalExpr (.dir "foo" none (.text "x")) ⟨none, 0, none, []⟩).1 = none ∧
      0 < (evalExpr (.dir "foo" none (.text "x")) ⟨none, 0, none, []⟩).2.errors ∧
      (evalExpr (.dir "foo" none (.text "x")) ⟨none, 0, none, []⟩).2.fs = none) ∧
    ((evalExpr (.file "foo" none false (.text "x")) ⟨none, 0, none, []⟩).1 = none ∧
      0 < (evalExpr (.file "foo" none false (.text "x")) ⟨none, 0, none, []⟩).2.errors ∧
      (evalExpr (.file "foo" none false (.text "x")) ⟨none, 0, none, []⟩).2.fs = none) ∧
    ((evalExpr (.chdir 0 ["foo"]) ⟨none, 0, none, []⟩).1 = none ∧
      0 < (evalExpr (.chdir 0 ["foo"]) ⟨none, 0, none, []⟩).2.errors) ∧
    pwd ⟨none, 0, none, []⟩ = (none, ⟨none, 1, none, []⟩) ∧
    doGetFs ⟨none, 0, none, []⟩ = (none, ⟨none, 1, none, []⟩) :=
  c9_unconfigured_halts rfl

end MacromaniaFs
